import Mathlib

/-!
Verification of the Text2Cypher Graph-RAG core (ScalableSys-Proj2).

Shallow embedding of the pieces of the repository the claims are about:

* the bounded generate/validate/repair synthesis loop
  (src/text_2_cypher/query_refinement.py, QueryGenerator.generate_with_refinement);
* the LRU cache store used by the pipeline
  (src/cache_method/data_manager.py wraps cachetools.LRUCache, an external
  library; the store itself is modelled from the spec, its callers from src);
* the cache fingerprint used by the pipeline coordinator
  (src/graph_rag.py, EnhancedGraphRAG.run_query);
* the exemplar top-k selector (src/text_2_cypher/exemplar_selector.py and
  src/text_2_cypher/exemplar_selector_neural.py);
* the ordered regex rewrite pipeline (src/build/lib/post_processor.py);
* the pipeline coordinator run_query (src/graph_rag.py) composing the above.

Language-model collaborators (the DSPy generator / repairer predictors and the
Kuzu EXPLAIN validator) are modelled as injected oracles, exactly as the spec
treats them (external collaborators behind a narrow interface).  Python
machine-level details that the claims do not touch (unicode beyond ASCII,
floating point similarity scores) are modelled by the ASCII fragment and by
rational numbers respectively; each such choice is noted at its definition.
-/

namespace Text2Cypher

/-! ## Query refinement loop

Embedding of QueryGenerator.generate_with_refinement
(src/text_2_cypher/query_refinement.py, lines 52-100).

The DSPy text2cypher predictor is the oracle gen (its output string; the
question / schema / examples inputs are fixed for one synthesis call), the
ChainOfThought RepairCypher predictor is the oracle repair (a function of the
failed query and the error message; question and schema again fixed), and
validate_cypher is the oracle validate, returning (is_valid, error_message)
like the EXPLAIN-based checker.  Call counts of the three oracles are threaded
explicitly so the claims about "number of language-model-backed calls" are
statable. -/

/-- Number of calls made to each collaborator during one synthesis. -/
structure GwrCounts where
  gen : ℕ
  repair : ℕ
  validate : ℕ
  deriving DecidableEq, Repr

/-- Result of generate_with_refinement: the returned query (None when the
loop body never ran), the history of attempted queries, and the call counts. -/
structure GwrResult where
  query : Option String
  history : List String
  counts : GwrCounts
  deriving DecidableEq, Repr

/-- The repair part of the loop: iterations 1 .. max_iterations-1 of the
Python for-loop.  remaining counts how many loop iterations are left; cur is
current_query, errMsg is error_msg from the previous validation. -/
def gwrIter (repair : String → Option String → String)
    (validate : String → Bool × Option String) :
    ℕ → String → Option String → List String → GwrCounts → GwrResult
  | 0, cur, _, hist, c =>
      -- loop exhausted: "Return last attempt even if not valid"
      ⟨some cur, hist, c⟩
  | n + 1, cur, errMsg, hist, c =>
      let next := repair cur errMsg
      let c1 : GwrCounts := ⟨c.gen, c.repair + 1, c.validate⟩
      let hist1 := hist ++ [next]
      let v := validate next
      let c2 : GwrCounts := ⟨c1.gen, c1.repair, c1.validate + 1⟩
      if v.1 then ⟨some next, hist1, c2⟩
      else gwrIter repair validate n next v.2 hist1 c2

/-- QueryGenerator.generate_with_refinement.  max_iterations is an int in the
source (constructor default 3); for mi ≤ 0 the Python range is empty and the
function returns (None, []).  Otherwise iteration 0 calls the generator, and
the remaining mi - 1 iterations call the repairer; every iteration appends to
the history and then validates. -/
def generate_with_refinement (mi : ℤ) (gen : String)
    (repair : String → Option String → String)
    (validate : String → Bool × Option String) : GwrResult :=
  if mi ≤ 0 then ⟨none, [], ⟨0, 0, 0⟩⟩
  else
    let cur := gen
    let hist := [cur]
    let v := validate cur
    let c : GwrCounts := ⟨1, 0, 1⟩
    if v.1 then ⟨some cur, hist, c⟩
    else gwrIter repair validate (mi.toNat - 1) cur v.2 hist c

/-! ## LRU cache store

Modelled from the spec: the LRU key→value store of §4.1 / §8 (DataManager in
src/cache_method/data_manager.py delegates get_data / set_data to
cachetools.LRUCache, an external library whose implementation is not part of
this repository; only its callers and tests are under src/).  Entries are kept
in recency order, most recently used first.  get on a present key promotes the
entry; set inserts or overwrites at the most-recent position and evicts from
the least-recently-used end down to capacity. -/

/-- Bounded key→value store with recency order (head = most recently used). -/
structure LRUCacheModel (K V : Type) where
  entries : List (K × V)
  maxsize : ℕ
  deriving Repr

/-- Cache lookup: on a hit, return the value and promote the entry to the
most-recently-used position; on a miss, return none and leave the cache
untouched (an absent key is an explicit absent sentinel, not an error). -/
def lru_get [BEq K] (c : LRUCacheModel K V) (k : K) :
    Option V × LRUCacheModel K V :=
  match c.entries.lookup k with
  | some v => (some v, ⟨(k, v) :: c.entries.filter (fun p => !(p.1 == k)), c.maxsize⟩)
  | none => (none, c)

/-- Cache store: insert or overwrite key k at the most-recently-used position;
if the result would exceed capacity, drop entries from the
least-recently-used end. -/
def lru_set [BEq K] (c : LRUCacheModel K V) (k : K) (v : V) :
    LRUCacheModel K V :=
  ⟨((k, v) :: c.entries.filter (fun p => !(p.1 == k))).take c.maxsize, c.maxsize⟩

/-- The empty cache of a given capacity. -/
def lru_empty (K V : Type) (cap : ℕ) : LRUCacheModel K V := ⟨[], cap⟩

/-- Keys currently stored, in recency order. -/
def lru_keys (c : LRUCacheModel K V) : List K := c.entries.map Prod.fst

namespace Fingerprint

/-! ## Cache fingerprint of the pipeline coordinator

EnhancedGraphRAG.run_query (src/graph_rag.py, lines 293-295) builds the cache
key as the Python f-string

  cache_key = question + "|" + json.dumps(input_schema, sort_keys=True)

where input_schema is a string: run_graph_rag (line 417) passes
str(db_manager.get_schema_dict), the Python str() rendering of the schema
dictionary.  json.dumps applied to a str value produces a double-quoted JSON
string literal; sort_keys is vacuous for a string.  The embedding below covers
the ASCII fragment of the json string escaper (the schema and question texts
of this repository are ASCII). -/

/-- One hexadecimal digit, lowercase, as python json.dumps prints \uXXXX. -/
def hexDigit (n : ℕ) : Char :=
  if n < 10 then Char.ofNat (48 + n) else Char.ofNat (87 + n)

/-- json.dumps escaping of one character (ASCII fragment): the two-character
shorthands for quote, backslash and the common control characters, \uXXXX for
the remaining control characters and for DEL and above (ensure_ascii), and the
character itself otherwise. -/
def jsonEscapeChar (c : Char) : List Char :=
  if c = '"' then ['\\', '"']
  else if c = '\\' then ['\\', '\\']
  else if c = '\n' then ['\\', 'n']
  else if c = '\t' then ['\\', 't']
  else if c = '\r' then ['\\', 'r']
  else if c = Char.ofNat 8 then ['\\', 'b']
  else if c = Char.ofNat 12 then ['\\', 'f']
  else if 32 ≤ c.toNat ∧ c.toNat < 127 then [c]
  else ['\\', 'u', hexDigit (c.toNat / 4096 % 16), hexDigit (c.toNat / 256 % 16),
        hexDigit (c.toNat / 16 % 16), hexDigit (c.toNat % 16)]

/-- json.dumps of a Python str value: a double-quoted, escaped string. -/
def jsonDumpsString (s : String) : String :=
  ⟨'"' :: (s.data.flatMap jsonEscapeChar) ++ ['"']⟩

/-- The cache key of EnhancedGraphRAG.run_query:
f-string question | json.dumps(input_schema, sort_keys=True) with a string
input_schema. -/
def cache_key (question inputSchema : String) : String :=
  question ++ "|" ++ jsonDumpsString inputSchema

/-- Python str() of a dictionary with string keys and int values, in insertion
order: repr renders single-quoted keys and decimal values, comma-space
separated, inside braces.  This is the serialization run_graph_rag applies to
the schema dictionary before run_query fingerprints it.  The dictionary is
modelled as its insertion-ordered association list. -/
def pyStrDict (d : List (String × ℕ)) : String :=
  "\x7b" ++ String.intercalate ", "
    (d.map (fun p => "\x27" ++ p.1 ++ "\x27: " ++ toString p.2)) ++ "\x7d"

/-- Characters that json.dumps copies verbatim (no escaping): printable ASCII
other than the quote and the backslash. -/
def jsonPlain (c : Char) : Prop :=
  c ≠ '"' ∧ c ≠ '\\' ∧ 32 ≤ c.toNat ∧ c.toNat < 127

instance (c : Char) : Decidable (jsonPlain c) := by
  unfold jsonPlain; infer_instance

end Fingerprint

/-! ## Exemplar selector

Embedding of ExemplarSelector.select_top_k
(src/text_2_cypher/exemplar_selector.py, lines 14-26; the neural variant in
src/text_2_cypher/exemplar_selector_neural.py computes the same
argsort/slice/reverse selection from its similarity vector on a populated
index, but raises on an empty one — see select_top_k_neural).  The similarity
vector is produced by the injected embedding collaborator (TF-IDF cosine
similarity or dense-embedding cosine similarity); the spec treats it as an
external collaborator, so it is modelled as an arbitrary rational-valued
function val of the exemplar position.  np.argsort is modelled as a stable
ascending sort of the positions; numpy sorts arrays of fewer than 17 elements
with insertion sort, which is stable, and every exemplar list in this
repository has 5 entries.  The Python slice [-k:] with its sign and clamping
semantics is modelled by pySliceFrom. -/

/-- Insert position i into an ascending-ordered list of positions, after every
position of smaller-or-equal value: the stable insertion step of argsort. -/
def argInsert (val : ℕ → ℚ) (i : ℕ) : List ℕ → List ℕ
  | [] => [i]
  | j :: rest => if val j ≤ val i then j :: argInsert val i rest else i :: j :: rest

/-- np.argsort of the similarity vector val over n positions: the positions
0..n-1 sorted by ascending value, equal values kept in position order. -/
def np_argsort (val : ℕ → ℚ) (n : ℕ) : List ℕ :=
  (List.range n).foldl (fun acc i => argInsert val i acc) []

/-- Python list slice l[start:]: a negative start counts from the end and is
clamped at 0; a start beyond the length yields the empty list. -/
def pySliceFrom (start : ℤ) (l : List α) : List α :=
  l.drop (if start < 0 then ((l.length : ℤ) + start).toNat else start.toNat)

/-- The index list np.argsort(similarities)[-k:][::-1] of select_top_k. -/
def top_k_indices (val : ℕ → ℚ) (n : ℕ) (k : ℤ) : List ℕ :=
  (pySliceFrom (-k) (np_argsort val n)).reverse

/-- ExemplarSelector.select_top_k: the exemplars at the selected indices.
k is a Python int (the source applies no validation to it).  All indices
produced by argsort are in range, so the lookup never drops an index.
This oracle-similarity model is valid for a populated index only: on an
index of zero exemplars the neural variant's inlined similarity expression
itself raises, which select_top_k_neural below models explicitly. -/
def select_top_k (exemplars : List α) (val : ℕ → ℚ) (k : ℤ) : List α :=
  (top_k_indices val exemplars.length k).filterMap (fun i => exemplars.get? i)

/-- np.dot of two one-dimensional arrays of equal length. -/
def np_dot (a b : List ℚ) : ℚ := (List.zipWith (fun x y => x * y) a b).sum

/-- The neural ExemplarSelector.select_top_k
(src/text_2_cypher/exemplar_selector_neural.py, lines 39-73), including its
inlined cosine-similarity block.  model.encode is the external collaborator:
at construction it maps the exemplar questions to one embedding row per
exemplar (exemplarEmbeddings), at query time it maps the question to
questionEmbedding, and np.linalg.norm of a single vector is the external
npNorm.  sentence-transformers returns a one-dimensional empty array for an
empty input list, so on an index of zero exemplars the similarity expression
np.dot(E, q) / (np.linalg.norm(E, axis=1) * np.linalg.norm(q)) feeds that
1-D empty array to np.dot (length 0 against the question dimension) and to
np.linalg.norm with axis=1 — both raise ValueError, and the exception
escapes select_top_k uncaught: modelled as none.  On a populated index E is
an (n, d) matrix, the block yields one score per exemplar, the same
argsort / [-k:] slice / [::-1] selection as the TF-IDF variant runs, and
each chosen exemplar copy is returned together with its similarity_score. -/
def select_top_k_neural (exemplars : List α)
    (exemplarEmbeddings : List (List ℚ)) (questionEmbedding : List ℚ)
    (npNorm : List ℚ → ℚ) (k : ℤ) : Option (List (α × ℚ)) :=
  if exemplarEmbeddings.isEmpty then none
  else
    let sims := exemplarEmbeddings.map (fun e =>
      np_dot e questionEmbedding / (npNorm e * npNorm questionEmbedding))
    some ((top_k_indices (fun i => sims.getD i 0) sims.length k).filterMap
      (fun i => (exemplars.get? i).map (fun ex => (ex, sims.getD i 0))))

namespace PostProcessor

/-! ## Rule rewriter

Embedding of CypherPostProcessor (src/build/lib/post_processor.py).  Every
rule is a Python re.sub / re.search over the query text; the regexes involved
use no backtracking-sensitive constructs (every starred class is disjoint from
the character that follows it), so each is implemented by deterministic
maximal-munch scanning.  The character classes are the ASCII fragment of
Python \w and \s, which covers every query text in the repository.
re.sub semantics: leftmost match, replace, continue scanning immediately after
the match (non-overlapping). -/

/-- ASCII fragment of Python regex \w. -/
def isWordChar (c : Char) : Bool := c.isAlpha || c.isDigit || c = '_'

/-- ASCII fragment of Python regex \s. -/
def isSpaceChar (c : Char) : Bool :=
  c = ' ' || c = '\t' || c = '\n' || c = '\r' || c = Char.ofNat 11 || c = Char.ofNat 12

/-- The two Python quote characters of the character class in rule 1. -/
def isQuoteChar (c : Char) : Bool := c = Char.ofNat 39 || c = '"'

/-- Case-insensitive literal match (pattern given lowercase); returns the
rest of the input after the literal. -/
def matchLitCI : List Char → List Char → Option (List Char)
  | [], l => some l
  | _ :: _, [] => none
  | p :: ps, c :: cs => if c.toLower = p then matchLitCI ps cs else none

/-- re.sub driver: scan left to right; at each position either apply the
matcher (consuming its reported length, emitting its replacement) or copy one
character.  Matchers below always consume at least one character; the fuel is
the input length, enough for the whole scan. -/
def pySub (m : List Char → Option (ℕ × List Char)) : ℕ → List Char → List Char
  | 0, l => l
  | _ + 1, [] => []
  | fuel + 1, c :: rest =>
    match m (c :: rest) with
    | some (n, rep) => rep ++ pySub m fuel ((c :: rest).drop (max n 1))
    | none => c :: pySub m fuel rest

/-- Matcher for rule 1, pattern
WHERE\s+(\w+)\.(\w+)\s*=\s*[quote]([^quotes]+)[quote] with IGNORECASE:
on a match, the consumed length and the replacement
WHERE LOWER(var.prop) CONTAINS followed by the lowercased value, which the
Python f-string always wraps in single quotes whatever quote character the
match used, when prop is name-like; otherwise the matched text itself (the
code returns match.group(0)). -/
def ruleOneMatch (l : List Char) : Option (ℕ × List Char) :=
  match matchLitCI "where".data l with
  | none => none
  | some r1 =>
    let sp := r1.takeWhile isSpaceChar
    let r2 := r1.dropWhile isSpaceChar
    if sp.isEmpty then none else
    let varName := r2.takeWhile isWordChar
    let r3 := r2.dropWhile isWordChar
    if varName.isEmpty then none else
    match r3 with
    | '.' :: r4 =>
      let prop := r4.takeWhile isWordChar
      let r5 := r4.dropWhile isWordChar
      if prop.isEmpty then none else
      match r5.dropWhile isSpaceChar with
      | '=' :: r7 =>
        match r7.dropWhile isSpaceChar with
        | q :: r9 =>
          if isQuoteChar q then
            let value := r9.takeWhile (fun c => !(isQuoteChar c))
            let r10 := r9.dropWhile (fun c => !(isQuoteChar c))
            if value.isEmpty then none else
            match r10 with
            | q2 :: r11 =>
              if isQuoteChar q2 then
                let consumed := l.length - r11.length
                let lowProp := prop.map Char.toLower
                if lowProp = "name".data ∨ lowProp = "knownname".data ∨
                    lowProp = "fullname".data then
                  some (consumed,
                    "WHERE LOWER(".data ++ varName ++ '.' :: prop ++
                    ") CONTAINS ".data ++
                    Char.ofNat 39 :: (value.map Char.toLower) ++ [Char.ofNat 39])
                else
                  some (consumed, l.take consumed)
              else none
            | [] => none
          else none
        | _ => none
      | _ => none
    | _ => none

/-- Rule 1: enforce_lowercase_contains. -/
def enforce_lowercase_contains (l : List Char) : List Char :=
  pySub ruleOneMatch l.length l

/-- The (,\s*var\s*)*$ tail of the rule-2 pattern, starting right after a
variable: skip whitespace greedily, accept at end of input, or consume a comma
and a further variable.  Returns the capture of the last repetition (Python
group 2: only the final iteration of a repeated group is kept). -/
def p2Tail (g2 : Option (List Char)) : ℕ → List Char → Option (Option (List Char))
  | 0, _ => none
  | fuel + 1, l =>
    match l.dropWhile isSpaceChar with
    | [] => some g2
    | ',' :: r2 =>
      match r2.dropWhile isSpaceChar with
      | c :: r4 =>
        if c.isAlpha then
          let w := r4.takeWhile isWordChar
          let r5 := r4.dropWhile isWordChar
          p2Tail (some (c :: w)) fuel r5
        else none
      | [] => none
    | _ => none

/-- Try the rule-2 pattern RETURN\s+([a-z]\w*)\s*(?:,\s*([a-z]\w*)\s*)*$
(IGNORECASE) at the start of l, which must be consumed entirely.  Returns the
two captures (first variable, last repeated variable). -/
def matchP2At (l : List Char) : Option (List Char × Option (List Char)) :=
  match matchLitCI "return".data l with
  | none => none
  | some r1 =>
    let sp := r1.takeWhile isSpaceChar
    let r2 := r1.dropWhile isSpaceChar
    if sp.isEmpty then none else
    match r2 with
    | c :: r3 =>
      if c.isAlpha then
        let w := r3.takeWhile isWordChar
        let r4 := r3.dropWhile isWordChar
        match p2Tail none (r4.length + 1) r4 with
        | some g2 => some (c :: w, g2)
        | none => none
      else none
    | [] => none

/-- re.search for the rule-2 pattern: leftmost start position at which the
pattern matches (out to the end of the string, where its $ anchors).  Returns
the text before the match and the captures. -/
def searchP2 : ℕ → List Char → List Char → Option (List Char × (List Char × Option (List Char)))
  | 0, _, _ => none
  | fuel + 1, pre, l =>
    match matchP2At l with
    | some g => some (pre.reverse, g)
    | none =>
      match l with
      | [] => none
      | c :: rest => searchP2 fuel (c :: pre) rest

/-- The per-variable expansion table of rule 2 (exact, case-sensitive
membership tests, as in the source). -/
def expandVar (v : List Char) : List (List Char) :=
  if v = "s".data ∨ v = "s1".data ∨ v = "s2".data ∨ v = "scholar".data then
    [v ++ ".knownName".data]
  else if v = "p".data ∨ v = "p1".data ∨ v = "prize".data then
    [v ++ ".category".data, v ++ ".awardYear".data]
  else [v ++ ".name".data]

/-- Whether pat occurs as a contiguous run inside l. -/
def listHasInfix (pat : List Char) : List Char → Bool
  | [] => pat.isEmpty
  | c :: rest => pat.isPrefixOf (c :: rest) || listHasInfix pat rest

/-- Rule 2: expand_node_returns.  On a search hit, the variables are the
non-None captures; re.sub with the same end-anchored pattern replaces the
matched tail with RETURN followed by the comma-joined expansion. -/
def expand_node_returns (l : List Char) : List Char :=
  match searchP2 (l.length + 1) [] l with
  | some (pre, g1, g2) =>
    let varList := g1 :: (match g2 with | some v => [v] | none => [])
    let expanded := varList.flatMap expandVar
    pre ++ "RETURN ".data ++ (List.intercalate ", ".data expanded)
  | none => l

/-- Matcher for the rule-3 pattern apoc\.\w+\([^)]*\) (IGNORECASE):
consumed length and empty replacement. -/
def apocMatch (l : List Char) : Option (ℕ × List Char) :=
  match matchLitCI "apoc.".data l with
  | none => none
  | some r1 =>
    let w := r1.takeWhile isWordChar
    let r2 := r1.dropWhile isWordChar
    if w.isEmpty then none else
    match r2 with
    | '(' :: r3 =>
      match r3.dropWhile (fun c => !(c = ')')) with
      | ')' :: r5 => some (l.length - r5.length, [])
      | _ => none
    | _ => none

/-- Rule 3: remove_apoc_calls, guarded by the substring test
apoc. in query.lower(). -/
def remove_apoc_calls (l : List Char) : List Char :=
  if listHasInfix "apoc.".data (l.map Char.toLower) then pySub apocMatch l.length l
  else l

/-- Word boundary \b right after a literal that ends in a word character:
end of input or a non-word character. -/
def atBoundary : List Char → Bool
  | [] => true
  | c :: _ => !(isWordChar c)

/-- Matcher for \.name\b(?=.*Scholar): the lookahead requires Scholar after
the match on the same line (regex . does not cross a newline). -/
def nameMatch (l : List Char) : Option (ℕ × List Char) :=
  if l.take 5 = ".name".data then
    let rest := l.drop 5
    if atBoundary rest ∧
        listHasInfix "Scholar".data (rest.takeWhile (fun c => !(c = '\n'))) then
      some (5, ".knownName".data)
    else none
  else none

/-- Matcher for \.amount\b. -/
def amountMatch (l : List Char) : Option (ℕ × List Char) :=
  if l.take 7 = ".amount".data ∧ atBoundary (l.drop 7) then
    some (7, ".prizeAmount".data)
  else none

/-- Matcher for \.year\b. -/
def yearMatch (l : List Char) : Option (ℕ × List Char) :=
  if l.take 5 = ".year".data ∧ atBoundary (l.drop 5) then
    some (5, ".awardYear".data)
  else none

/-- Rule 4: fix_property_names, the three corrections in dictionary insertion
order (the guarding re.search only affects the audit trail; when it fails the
sub is the identity). -/
def fix_property_names (l : List Char) : List Char :=
  let l1 := pySub nameMatch l.length l
  let l2 := pySub amountMatch l1.length l1
  pySub yearMatch l2.length l2

/-- Rule 5: clean_whitespace, Python ( ).join(query.split()): the
whitespace-separated words joined by single spaces (the subsequent
re.sub of runs of whitespace and the strip are identities on this). -/
def clean_whitespace (l : List Char) : List Char :=
  List.intercalate [' '] ((l.splitOnP isSpaceChar).filter (fun w => !w.isEmpty))

/-- CypherPostProcessor.process: the five rules in their fixed order. -/
def processChars (l : List Char) : List Char :=
  clean_whitespace (fix_property_names (remove_apoc_calls
    (expand_node_returns (enforce_lowercase_contains l))))

/-- CypherPostProcessor.process on a String. -/
def process (s : String) : String := ⟨processChars s.data⟩

end PostProcessor

/-! ## Pipeline coordinator

Embedding of EnhancedGraphRAG.run_query and get_cypher_query
(src/graph_rag.py, lines 267-313).  The language-model collaborators (schema
pruner, generator, repairer) and the database executor are injected oracles;
the question and the pruned schema are fixed inputs of one call and are
absorbed into the oracles.  Calls to the exemplar selector, generator,
validator, repairer and rule rewriter are counted explicitly; the cache-hit
branch of run_query returns before any of them run, which the counts record.
-/

/-- One few-shot exemplar (question, cypher) as in the exemplars list of
src/graph_rag.py. -/
structure Exemplar where
  question : String
  cypher : String
  deriving DecidableEq, Repr

/-- A value stored in the pipeline cache: the dict with query and results
built by run_query (a two-key dict, hence always truthy in the
if cached_result test). -/
structure QueryRecord where
  query : String
  results : List String
  deriving DecidableEq, Repr

/-- How often each pipeline stage ran during one run_query call. -/
structure PipelineCounts where
  selector : ℕ
  generator : ℕ
  validator : ℕ
  repairer : ℕ
  rewriter : ℕ
  deriving DecidableEq, Repr

/-- No stage ran. -/
def PipelineCounts.zero : PipelineCounts := ⟨0, 0, 0, 0, 0⟩

/-- The full outcome of run_query: the returned (query, results) pair, the
cache after the call, and the stage call counts.  query = none encodes the
exception the Python code would raise when the synthesis loop returned None
(only possible for a non-positive iteration budget). -/
structure RunQueryOutcome where
  query : Option String
  results : Option (List String)
  cache : LRUCacheModel String QueryRecord
  counts : PipelineCounts

/-- EnhancedGraphRAG.get_cypher_query: select the top-3 exemplars, build the
examples text, synthesize with refinement, post-process.  The generator
oracle takes the examples text (its question and schema inputs are fixed). -/
def get_cypher_query (exemplars : List Exemplar) (simv : ℕ → ℚ) (mi : ℤ)
    (gen : String → String) (repair : String → Option String → String)
    (validate : String → Bool × Option String) : Option String × PipelineCounts :=
  let selected := select_top_k exemplars simv 3
  let examplesText := String.intercalate "\n\n"
    (selected.map (fun ex => "Question: " ++ ex.question ++ "\nCypher: " ++ ex.cypher))
  let g := generate_with_refinement mi (gen examplesText) repair validate
  match g.query with
  | some q =>
    (some (PostProcessor.process q),
      ⟨1, g.counts.gen, g.counts.validate, g.counts.repair, 1⟩)
  | none => (none, ⟨1, g.counts.gen, g.counts.validate, g.counts.repair, 0⟩)

/-- EnhancedGraphRAG.run_query: fingerprint, cache lookup, on hit return the
cached record at once; on miss synthesize, execute on the database (dbExec
returns none when kuzu raises RuntimeError), cache the result only after a
successful execution, and return (query, results), results = none on a
database error. -/
def run_query (cache : LRUCacheModel String QueryRecord)
    (question inputSchema : String)
    (exemplars : List Exemplar) (simv : ℕ → ℚ) (mi : ℤ)
    (gen : String → String) (repair : String → Option String → String)
    (validate : String → Bool × Option String)
    (dbExec : String → Option (List String)) : RunQueryOutcome :=
  let key := Fingerprint.cache_key question inputSchema
  let looked := lru_get cache key
  match looked.1 with
  | some r => ⟨some r.query, some r.results, looked.2, PipelineCounts.zero⟩
  | none =>
    let synth := get_cypher_query exemplars simv mi gen repair validate
    match synth.1 with
    | some q =>
      match dbExec q with
      | some rows => ⟨some q, some rows, lru_set looked.2 key ⟨q, rows⟩, synth.2⟩
      | none => ⟨some q, none, looked.2, synth.2⟩
    | none => ⟨none, none, looked.2, synth.2⟩

/-! ## Claim theorems -/

/-- Helper: whatever the validator does, the repair phase never performs more
repairs (or validations) than it has remaining iterations, and never touches
the generator. -/
theorem gwrIter_counts_le (repair : String → Option String → String)
    (validate : String → Bool × Option String) :
    ∀ (n : ℕ) (cur : String) (err : Option String) (hist : List String)
      (c : GwrCounts),
      (gwrIter repair validate n cur err hist c).counts.gen = c.gen ∧
      (gwrIter repair validate n cur err hist c).counts.repair ≤ c.repair + n ∧
      (gwrIter repair validate n cur err hist c).counts.validate ≤ c.validate + n := by
  intro n
  induction n with
  | zero => intro cur err hist c; simp [gwrIter]
  | succ n ih =>
    intro cur err hist c
    simp only [gwrIter]
    cases hval : (validate (repair cur err)).1 with
    | true =>
      simp only [hval, if_true]
      refine ⟨trivial, ?_, ?_⟩ <;> omega
    | false =>
      simp only [hval, Bool.false_eq_true, if_false]
      have h := ih (repair cur err) (validate (repair cur err)).2
        (hist ++ [repair cur err]) ⟨c.gen, c.repair + 1, c.validate + 1⟩
      dsimp only at h
      exact ⟨h.1, le_trans h.2.1 (by omega), le_trans h.2.2 (by omega)⟩

/-- Helper: when the validator rejects every query, the repair phase runs all
its remaining iterations, appends one attempt per iteration, and finally
returns the last element of the history. -/
theorem gwrIter_always_invalid (repair : String → Option String → String)
    (validate : String → Bool × Option String)
    (hv : ∀ q, (validate q).1 = false) :
    ∀ (n : ℕ) (cur : String) (err : Option String) (hist : List String)
      (c : GwrCounts), hist.getLast? = some cur →
      (gwrIter repair validate n cur err hist c).query =
        (gwrIter repair validate n cur err hist c).history.getLast? ∧
      (gwrIter repair validate n cur err hist c).history.length = hist.length + n ∧
      (gwrIter repair validate n cur err hist c).counts =
        ⟨c.gen, c.repair + n, c.validate + n⟩ := by
  intro n
  induction n with
  | zero => intro cur err hist c hlast; simpa [gwrIter] using hlast.symm
  | succ n ih =>
    intro cur err hist c hlast
    simp only [gwrIter, hv (repair cur err), Bool.false_eq_true, if_false]
    have h := ih (repair cur err) (validate (repair cur err)).2
      (hist ++ [repair cur err]) ⟨c.gen, c.repair + 1, c.validate + 1⟩
      (by simp)
    dsimp only at h
    refine ⟨h.1, ?_, ?_⟩
    · rw [h.2.1]; simp [List.length_append]; omega
    · rw [h.2.2]; congr 1 <;> omega

/-- C1, amended: for a positive budget the generator runs exactly once and
the total number of language-model-backed calls (generation plus repairs) is
at most max_iterations (not max_iterations + 1); with a validator that always
rejects, the repairer runs exactly max_iterations - 1 times, the validator
max_iterations times, and the attempt history has length max_iterations. -/
theorem c1_call_bound (mi : ℤ) (hmi : 1 ≤ mi) (gen : String)
    (repair : String → Option String → String)
    (validate : String → Bool × Option String) :
    (generate_with_refinement mi gen repair validate).counts.gen = 1 ∧
    (generate_with_refinement mi gen repair validate).counts.gen +
      (generate_with_refinement mi gen repair validate).counts.repair ≤ mi.toNat ∧
    ((∀ q, (validate q).1 = false) →
      (generate_with_refinement mi gen repair validate).counts.repair =
        mi.toNat - 1 ∧
      (generate_with_refinement mi gen repair validate).counts.validate =
        mi.toNat ∧
      (generate_with_refinement mi gen repair validate).history.length =
        mi.toNat) := by
  have hne : ¬ mi ≤ 0 := by omega
  simp only [generate_with_refinement, if_neg hne]
  cases hval : (validate gen).1 with
  | true =>
    simp only [hval, if_true]
    refine ⟨trivial, by omega, fun hv => ?_⟩
    have := hv gen
    rw [hval] at this
    exact absurd this (by simp)
  | false =>
    simp only [hval, Bool.false_eq_true, if_false]
    have h1 := gwrIter_counts_le repair validate (mi.toNat - 1) gen
      (validate gen).2 [gen] ⟨1, 0, 1⟩
    dsimp only at h1
    refine ⟨h1.1, by omega, fun hv => ?_⟩
    have h2 := gwrIter_always_invalid repair validate hv (mi.toNat - 1) gen
      (validate gen).2 [gen] ⟨1, 0, 1⟩ rfl
    dsimp only at h2
    have hrep := congrArg GwrCounts.repair h2.2.2
    have hvalc := congrArg GwrCounts.validate h2.2.2
    dsimp only at hrep hvalc
    refine ⟨by omega, by omega, ?_⟩
    rw [h2.2.1]
    simp only [List.length_singleton]
    omega

/-- Witness for c1_call_bound: max_iterations = 3 with an always-invalid
validator gives one generation, two repairs, three validations, and a
three-entry history. -/
theorem c1_call_bound_witness :
    (generate_with_refinement 3 "g" (fun q _ => q ++ "r")
        (fun _ => (false, some "e"))).counts.gen = 1 ∧
    (generate_with_refinement 3 "g" (fun q _ => q ++ "r")
        (fun _ => (false, some "e"))).counts.gen +
      (generate_with_refinement 3 "g" (fun q _ => q ++ "r")
        (fun _ => (false, some "e"))).counts.repair ≤ 3 ∧
    (generate_with_refinement 3 "g" (fun q _ => q ++ "r")
        (fun _ => (false, some "e"))).counts.repair = 2 ∧
    (generate_with_refinement 3 "g" (fun q _ => q ++ "r")
        (fun _ => (false, some "e"))).history.length = 3 := by
  have h := c1_call_bound 3 (by decide) "g" (fun q _ => q ++ "r")
    (fun _ => (false, some "e"))
  have h3 := h.2.2 (fun _ => rfl)
  exact ⟨h.1, h.2.1, h3.1, h3.2.2⟩

/-- C3, amended: when the validator rejects every attempt and the budget is
positive, generate_with_refinement terminates normally (it is a total
function) and returns the last attempted query text together with the full
ordered history of all max_iterations attempts; however the result carries no
flag marking it unvalidated — it has the same shape as a success. -/
theorem c3_exhaustion_returns_last (mi : ℤ) (hmi : 1 ≤ mi) (gen : String)
    (repair : String → Option String → String)
    (validate : String → Bool × Option String)
    (hv : ∀ q, (validate q).1 = false) :
    (generate_with_refinement mi gen repair validate).query =
      (generate_with_refinement mi gen repair validate).history.getLast? ∧
    (generate_with_refinement mi gen repair validate).history.length =
      mi.toNat ∧
    (generate_with_refinement mi gen repair validate).query.isSome = true := by
  have hne : ¬ mi ≤ 0 := by omega
  simp only [generate_with_refinement, if_neg hne, hv gen, Bool.false_eq_true,
    if_false]
  have h := gwrIter_always_invalid repair validate hv (mi.toNat - 1) gen
    (validate gen).2 [gen] ⟨1, 0, 1⟩ rfl
  have hlen : (gwrIter repair validate (mi.toNat - 1) gen (validate gen).2
      [gen] ⟨1, 0, 1⟩).history.length = mi.toNat := by
    rw [h.2.1]; simp only [List.length_singleton]; omega
  refine ⟨h.1, hlen, ?_⟩
  rw [h.1, List.getLast?_isSome]
  intro hnil
  rw [hnil] at hlen
  simp at hlen
  omega

/-- Witness for c3_exhaustion_returns_last at max_iterations = 2. -/
theorem c3_exhaustion_returns_last_witness :
    (generate_with_refinement 2 "g" (fun q _ => q ++ "r")
        (fun _ => (false, some "e"))).query =
      (generate_with_refinement 2 "g" (fun q _ => q ++ "r")
        (fun _ => (false, some "e"))).history.getLast? ∧
    (generate_with_refinement 2 "g" (fun q _ => q ++ "r")
        (fun _ => (false, some "e"))).history.length = 2 ∧
    (generate_with_refinement 2 "g" (fun q _ => q ++ "r")
        (fun _ => (false, some "e"))).query.isSome = true :=
  c3_exhaustion_returns_last 2 (by decide) "g" (fun q _ => q ++ "r")
    (fun _ => (false, some "e")) (fun _ => rfl)

/-- C1, counterexample.  With a validator stubbed to always return invalid
and max_iterations = 3, generate_with_refinement calls the generator once but
the repairer only 2 times (not 3), and the attempt history has length 3 (not
4): the loop runs max_iterations iterations in total, iteration 0 being the
generation, so the claimed budget of one generation plus maxIterations
repairs is off by one. -/
theorem c1_counterexample :
    (generate_with_refinement 3 "q0" (fun q _ => q ++ "r")
        (fun _ => (false, some "err"))).counts.gen = 1 ∧
    (generate_with_refinement 3 "q0" (fun q _ => q ++ "r")
        (fun _ => (false, some "err"))).counts.repair = 2 ∧
    (generate_with_refinement 3 "q0" (fun q _ => q ++ "r")
        (fun _ => (false, some "err"))).counts.repair ≠ 3 ∧
    (generate_with_refinement 3 "q0" (fun q _ => q ++ "r")
        (fun _ => (false, some "err"))).history.length = 3 ∧
    (generate_with_refinement 3 "q0" (fun q _ => q ++ "r")
        (fun _ => (false, some "err"))).history.length ≠ 4 := by
  decide

/-- C3, counterexample.  The value returned after the iteration budget is
exhausted carries no flag marking it unvalidated: with max_iterations = 1 a
run whose validator always rejects returns exactly the same value (query,
history and call counts) as a run whose validator accepts, so the result is
indistinguishable from a validated success. -/
theorem c3_counterexample :
    generate_with_refinement 1 "q0" (fun q _ => q ++ "r")
        (fun _ => (false, some "e")) =
      generate_with_refinement 1 "q0" (fun q _ => q ++ "r")
        (fun _ => (true, none)) := by
  decide

/-- C2, counterexample.  Two schema dictionaries that are equal as key→value
maps (a permutation of one another, with no duplicate keys) but differ in
insertion order produce different cache keys: the pipeline serializes the
schema with Python str() in insertion order before fingerprinting, and no
sorting of keys takes place on that string. -/
theorem c2_counterexample :
    ([("a", 1), ("b", 2)] : List (String × ℕ)).Perm [("b", 2), ("a", 1)] ∧
    (([("a", 1), ("b", 2)] : List (String × ℕ)).map Prod.fst).Nodup ∧
    Fingerprint.cache_key "q" (Fingerprint.pyStrDict [("a", 1), ("b", 2)]) ≠
      Fingerprint.cache_key "q" (Fingerprint.pyStrDict [("b", 2), ("a", 1)]) := by
  decide

/-- Helper: a character json.dumps does not escape serializes to itself. -/
theorem jsonEscapeChar_plain (c : Char) (h : Fingerprint.jsonPlain c) :
    Fingerprint.jsonEscapeChar c = [c] := by
  obtain ⟨h1, h2, h3, h4⟩ := h
  unfold Fingerprint.jsonEscapeChar
  rw [if_neg h1, if_neg h2, if_neg ?hn, if_neg ?ht, if_neg ?hr, if_neg ?hb,
    if_neg ?hf, if_pos ⟨h3, h4⟩]
  case hn => rintro rfl; exact absurd h3 (by decide)
  case ht => rintro rfl; exact absurd h3 (by decide)
  case hr => rintro rfl; exact absurd h3 (by decide)
  case hb => rintro rfl; exact absurd h3 (by decide)
  case hf => rintro rfl; exact absurd h3 (by decide)

/-- Helper: escaping a fully plain character list is the identity. -/
theorem jsonEscape_flatMap_plain (l : List Char)
    (h : ∀ c ∈ l, Fingerprint.jsonPlain c) :
    l.flatMap Fingerprint.jsonEscapeChar = l := by
  induction l with
  | nil => rfl
  | cons c rest ih =>
    rw [List.flatMap_cons, jsonEscapeChar_plain c (h c (by simp)),
      ih (fun d hd => h d (by simp [hd]))]
    rfl

/-- Helper: on plain text, json.dumps of a string only wraps it in double
quotes. -/
theorem jsonDumpsString_plain (s : String)
    (h : ∀ c ∈ s.data, Fingerprint.jsonPlain c) :
    Fingerprint.jsonDumpsString s = "\"" ++ s ++ "\"" := by
  apply String.ext
  simp only [Fingerprint.jsonDumpsString, String.data_append]
  rw [jsonEscape_flatMap_plain s.data h]
  rfl

/-- C2, amended: the pipeline cache key is the raw composite string
question | json-encoded schema string — not a 256-bit digest (its length
grows with both inputs).  It is byte-identical exactly for identical
(question, serialized-schema) pairs; no key-order canonicalization happens,
because the schema reaches the fingerprint already serialized by Python
str(), in insertion order (see the counterexample). -/
theorem c2_fingerprint_composite (q s1 s2 : String)
    (h1 : ∀ c ∈ s1.data, Fingerprint.jsonPlain c)
    (h2 : ∀ c ∈ s2.data, Fingerprint.jsonPlain c) :
    (Fingerprint.cache_key q s1 = Fingerprint.cache_key q s2 ↔ s1 = s2) ∧
    (Fingerprint.cache_key q s1).length = q.length + s1.length + 3 := by
  unfold Fingerprint.cache_key
  rw [jsonDumpsString_plain s1 h1, jsonDumpsString_plain s2 h2]
  constructor
  · constructor
    · intro he
      apply String.ext
      have hd := congrArg String.data he
      simp only [String.data_append] at hd
      have hd1 := List.append_cancel_left hd
      rw [List.append_assoc, List.append_assoc] at hd1
      have hd2 := List.append_cancel_left hd1
      exact List.append_cancel_right hd2
    · rintro rfl; rfl
  · simp only [String.length_append]
    have hp : ("|" : String).length = 1 := rfl
    have hq : ("\"" : String).length = 1 := rfl
    omega

/-- Witness for c2_fingerprint_composite on plain ASCII inputs. -/
theorem c2_fingerprint_composite_witness :
    (Fingerprint.cache_key "q" "ab" = Fingerprint.cache_key "q" "ab" ↔
      ("ab" : String) = "ab") ∧
    (Fingerprint.cache_key "q" "ab").length = 6 :=
  c2_fingerprint_composite "q" "ab" "ab" (by decide) (by decide)

/-- C4, counterexample.  select_top_k breaks exact similarity ties by reverse
insertion order, not first-seen-first: with two exemplars of equal similarity
and k = 2 the later exemplar comes first.  Moreover k = 0 does not return
exactly 0 items: the Python slice [-0:] is the whole array, so all exemplars
are returned. -/
theorem c4_counterexample :
    select_top_k ["A", "B"] (fun _ => (1 : ℚ)) 2 = ["B", "A"] ∧
    select_top_k ["A", "B"] (fun _ => (1 : ℚ)) 2 ≠ ["A", "B"] ∧
    select_top_k ["A", "B"] (fun _ => (1 : ℚ)) 0 = ["B", "A"] := by
  decide

/-- The order in which a stable ascending argsort emits positions: strictly
smaller value first, equal values in position order. -/
def argsortLE (val : ℕ → ℚ) (i j : ℕ) : Prop :=
  val i < val j ∨ (val i = val j ∧ i ≤ j)

/-- Helper: inserting a position permutes consing it. -/
theorem argInsert_perm (val : ℕ → ℚ) (i : ℕ) :
    ∀ l : List ℕ, (argInsert val i l).Perm (i :: l) := by
  intro l
  induction l with
  | nil => exact List.Perm.refl _
  | cons j rest ih =>
    unfold argInsert
    by_cases h : val j ≤ val i
    · rw [if_pos h]
      exact (ih.cons j).trans (List.Perm.swap i j rest)
    · rw [if_neg h]

/-- Helper: np_argsort over n + 1 positions inserts position n into the sort
of the first n. -/
theorem np_argsort_succ (val : ℕ → ℚ) (n : ℕ) :
    np_argsort val (n + 1) = argInsert val n (np_argsort val n) := by
  unfold np_argsort
  rw [List.range_succ, List.foldl_append]
  rfl

/-- Helper: np_argsort is a permutation of the positions 0..n-1. -/
theorem np_argsort_perm (val : ℕ → ℚ) :
    ∀ n, (np_argsort val n).Perm (List.range n) := by
  intro n
  induction n with
  | zero => exact List.Perm.refl _
  | succ n ih =>
    rw [np_argsort_succ, List.range_succ]
    exact (argInsert_perm val n _).trans
      ((ih.cons n).trans (List.perm_append_singleton n (List.range n)).symm)

/-- Helper: stable insertion keeps the list ordered when the inserted
position is fresh (larger than every present position). -/
theorem argInsert_pairwise (val : ℕ → ℚ) (i : ℕ) :
    ∀ l : List ℕ, l.Pairwise (argsortLE val) → (∀ j ∈ l, j < i) →
      (argInsert val i l).Pairwise (argsortLE val) := by
  intro l
  induction l with
  | nil =>
    intro _ _
    simp [argInsert, List.pairwise_singleton]
  | cons j rest ih =>
    intro hp hlt
    rw [List.pairwise_cons] at hp
    unfold argInsert
    by_cases h : val j ≤ val i
    · rw [if_pos h]
      rw [List.pairwise_cons]
      constructor
      · intro x hx
        have hmem : x ∈ i :: rest := (argInsert_perm val i rest).mem_iff.mp hx
        rcases List.mem_cons.mp hmem with rfl | hxr
        · rcases lt_or_eq_of_le h with hlt2 | heq
          · exact Or.inl hlt2
          · exact Or.inr ⟨heq, le_of_lt (hlt j (by simp))⟩
        · exact hp.1 x hxr
      · exact ih hp.2 (fun y hy => hlt y (by simp [hy]))
    · rw [if_neg h]
      rw [List.pairwise_cons]
      refine ⟨?_, List.pairwise_cons.mpr hp⟩
      intro x hx
      rcases List.mem_cons.mp hx with rfl | hxr
      · exact Or.inl (not_le.mp h)
      · rcases hp.1 x hxr with hlt2 | ⟨heq, _⟩
        · exact Or.inl (lt_trans (not_le.mp h) hlt2)
        · exact Or.inl (heq ▸ not_le.mp h)

/-- Helper: np_argsort is sorted ascending with ties in position order. -/
theorem np_argsort_pairwise (val : ℕ → ℚ) :
    ∀ n, (np_argsort val n).Pairwise (argsortLE val) := by
  intro n
  induction n with
  | zero => exact List.Pairwise.nil
  | succ n ih =>
    rw [np_argsort_succ]
    refine argInsert_pairwise val n _ ih ?_
    intro j hj
    exact List.mem_range.mp ((np_argsort_perm val n).mem_iff.mp hj)

/-- Helper: looking up a list of in-range indices drops nothing. -/
theorem filterMap_get_length (ex : List α) :
    ∀ idxs : List ℕ, (∀ i ∈ idxs, i < ex.length) →
      (idxs.filterMap (fun i => ex.get? i)).length = idxs.length := by
  intro idxs
  induction idxs with
  | nil => intro _; rfl
  | cons i rest ih =>
    intro h
    have hi : i < ex.length := h i (by simp)
    rw [List.filterMap_cons, List.get?_eq_get hi]
    show (ex.get ⟨i, hi⟩ :: rest.filterMap (fun i => ex.get? i)).length = rest.length + 1
    rw [List.length_cons, ih (fun j hj => h j (by simp [hj]))]

/-- Helper: every selected index is a valid exemplar position, so
select_top_k returns one exemplar per selected index. -/
theorem select_top_k_length_eq (exemplars : List α) (val : ℕ → ℚ) (k : ℤ) :
    (select_top_k exemplars val k).length =
      (top_k_indices val exemplars.length k).length := by
  unfold select_top_k
  apply filterMap_get_length
  intro i hi
  unfold top_k_indices pySliceFrom at hi
  rw [List.mem_reverse] at hi
  have h2 : i ∈ np_argsort val exemplars.length := List.mem_of_mem_drop hi
  exact List.mem_range.mp ((np_argsort_perm val _).mem_iff.mp h2)

/-- C4, amended: for 1 ≤ k ≤ n, select_top_k returns exactly k exemplars in
descending-similarity order, but equal similarities are broken by reverse
insertion order — the later-inserted exemplar comes first (the ascending
argsort is stable, and the final reversal flips ties); and k = 0 returns all
n exemplars in that order rather than none. -/
theorem c4_topk_sorted (exemplars : List α) (val : ℕ → ℚ) (k : ℤ)
    (hk : 1 ≤ k) (hkn : k ≤ (exemplars.length : ℤ)) :
    (select_top_k exemplars val k).length = k.toNat ∧
    (top_k_indices val exemplars.length k).Pairwise
      (fun i j => val j < val i ∨ (val j = val i ∧ j < i)) ∧
    (select_top_k exemplars val 0).length = exemplars.length := by
  have hlen : (np_argsort val exemplars.length).length = exemplars.length :=
    (np_argsort_perm val _).length_eq.trans (List.length_range _)
  have hnodup : (np_argsort val exemplars.length).Nodup :=
    ((np_argsort_perm val _).nodup_iff).mpr (List.nodup_range _)
  refine ⟨?_, ?_, ?_⟩
  · rw [select_top_k_length_eq]
    unfold top_k_indices pySliceFrom
    rw [if_pos (by omega : -k < 0)]
    simp only [List.length_reverse, List.length_drop, hlen]
    omega
  · unfold top_k_indices
    rw [List.pairwise_reverse]
    have hp : (pySliceFrom (-k) (np_argsort val exemplars.length)).Pairwise
        (argsortLE val) :=
      (np_argsort_pairwise val _).sublist (List.drop_sublist _ _)
    have hnd : (pySliceFrom (-k) (np_argsort val exemplars.length)).Pairwise
        (fun i j => i ≠ j) :=
      (List.Nodup.sublist (List.drop_sublist _ _) hnodup)
    refine (hp.and hnd).imp ?_
    rintro i j ⟨hasc, hne⟩
    rcases hasc with hlt2 | ⟨heq, hle⟩
    · exact Or.inl hlt2
    · exact Or.inr ⟨heq, lt_of_le_of_ne hle hne⟩
  · rw [select_top_k_length_eq]
    unfold top_k_indices pySliceFrom
    rw [if_neg (by decide : ¬ (-0 : ℤ) < 0)]
    rw [(by decide : ((-0 : ℤ)).toNat = 0)]
    simp [hlen]

/-- Witness for c4_topk_sorted: three exemplars, k = 2. -/
theorem c4_topk_sorted_witness :
    (select_top_k ["A", "B", "C"] (fun i => if i = 0 then (5 : ℚ) else 4) 2).length = 2 ∧
    (top_k_indices (fun i => if i = 0 then (5 : ℚ) else 4)
        (["A", "B", "C"] : List String).length 2).Pairwise
      (fun i j => (if j = 0 then (5 : ℚ) else 4) < (if i = 0 then (5 : ℚ) else 4) ∨
        ((if j = 0 then (5 : ℚ) else 4) = (if i = 0 then (5 : ℚ) else 4) ∧ j < i)) ∧
    (select_top_k ["A", "B", "C"] (fun i => if i = 0 then (5 : ℚ) else 4) 0).length = 3 :=
  c4_topk_sorted ["A", "B", "C"] (fun i => if i = 0 then (5 : ℚ) else 4) 2
    (by decide) (by decide)

/-- C8, counterexample.  select_top_k performs no validation of k: with
k = -1 on a two-exemplar index it returns a normal one-exemplar result (the
slice from position 1 of the argsort) instead of failing, which refutes the
claimed InvalidArgument failure for every k < 0.  The zero-exemplar call of
the neural selector does abort — but through the ValueError the numpy shape
mismatch raises inside its similarity expression (modelled none), not
through an InvalidArgument validation; the TF-IDF variant cannot even be
constructed over zero exemplars. -/
theorem c8_counterexample :
    select_top_k ["A", "B"] (fun i => if i = 0 then (1 : ℚ) else 2) (-1) = ["B"] ∧
    select_top_k_neural ([] : List String) [] [(1 : ℚ)]
      (fun _ => (1 : ℚ)) 3 = none := by
  exact ⟨by decide, rfl⟩

/-- C8, amended: select_top_k applies no validation of its own.  For a
negative k with -k ≤ n it returns a normal result of n + k exemplars (the
Python slice [-k:] starts at position -k) — no error of any kind.  On an
index holding zero exemplars the neural selector does fail fast, surfaced
to the immediate caller and never retried — but through the ValueError the
numpy shape mismatch raises inside its similarity expression, an incidental
library error rather than an InvalidArgument check (and the TF-IDF variant
fails already at construction, before select_top_k is reachable); every
populated index returns normally. -/
theorem c8_no_validation (exemplars : List α) (val : ℕ → ℚ) (k : ℤ)
    (hk : k < 0) (hkn : -k ≤ (exemplars.length : ℤ)) :
    (select_top_k exemplars val k).length =
      ((exemplars.length : ℤ) + k).toNat ∧
    (∀ (qe : List ℚ) (npNorm : List ℚ → ℚ) (k2 : ℤ),
      select_top_k_neural ([] : List α) [] qe npNorm k2 = none) ∧
    (∀ (exemplars2 : List α) (embs : List (List ℚ)) (qe : List ℚ)
      (npNorm : List ℚ → ℚ) (k2 : ℤ), embs ≠ [] →
      (select_top_k_neural exemplars2 embs qe npNorm k2).isSome = true) := by
  refine ⟨?_, ?_, ?_⟩
  · rw [select_top_k_length_eq]
    have hlen : (np_argsort val exemplars.length).length = exemplars.length :=
      (np_argsort_perm val _).length_eq.trans (List.length_range _)
    unfold top_k_indices pySliceFrom
    rw [if_neg (by omega : ¬ -k < 0)]
    simp only [List.length_reverse, List.length_drop, hlen]
    omega
  · intro qe npNorm k2
    rfl
  · intro exemplars2 embs qe npNorm k2 hne
    cases embs with
    | nil => exact absurd rfl hne
    | cons e rest => rfl

/-- Witness for c8_no_validation: three exemplars and k = -1 yield two; the
empty neural index yields the escaped exception; a one-exemplar neural index
returns normally. -/
theorem c8_no_validation_witness :
    (select_top_k ["A", "B", "C"] (fun _ => (1 : ℚ)) (-1)).length = 2 ∧
    select_top_k_neural ([] : List String) [] [(1 : ℚ)]
      (fun _ => (1 : ℚ)) 5 = none ∧
    (select_top_k_neural ["A"] [[(1 : ℚ)]] [(1 : ℚ)]
      (fun _ => (1 : ℚ)) 1).isSome = true := by
  have h := c8_no_validation ["A", "B", "C"] (fun _ => (1 : ℚ)) (-1)
    (by decide) (by decide)
  exact ⟨h.1, h.2.1 [(1 : ℚ)] (fun _ => (1 : ℚ)) 5,
    h.2.2 ["A"] [[(1 : ℚ)]] [(1 : ℚ)] (fun _ => (1 : ℚ)) 1 (by decide)⟩

/-- C7: the rewrite pipeline is not idempotent, contradicting the required
invariant.  On the query RETURN s apoc.f(x) the first pass cannot expand the
bare RETURN (the trailing extension call blocks the end-anchored pattern) and
then removes that call, producing RETURN s; the second pass now expands it to
RETURN s.knownName, so re-running process changes the text further. -/
theorem c7_process_not_idempotent :
    PostProcessor.process (PostProcessor.process "RETURN s apoc.f(x)") ≠
      PostProcessor.process "RETURN s apoc.f(x)" ∧
    PostProcessor.process "RETURN s apoc.f(x)" = "RETURN s" ∧
    PostProcessor.process "RETURN s" = "RETURN s.knownName" := by
  decide

/-- Helper: membership in a unit-step range' interval. -/
theorem mem_range'_one {s n m : ℕ} :
    m ∈ List.range' s n ↔ s ≤ m ∧ m < s + n := by
  rw [List.mem_range']
  constructor
  · rintro ⟨i, hi, rfl⟩; omega
  · intro h; exact ⟨m - s, by omega, by omega⟩

/-- Helper: peeling the first element off a nonempty range'. -/
theorem range'_cons (s n : ℕ) (hn : 1 ≤ n) :
    List.range' s n = s :: List.range' (s + 1) (n - 1) := by
  conv_lhs => rw [show n = (n - 1) + 1 from by omega]
  rw [List.range'_succ]

/-- Helper: filtering away an absent key changes nothing. -/
theorem filter_key_ne {K V : Type} [BEq K] [LawfulBEq K]
    (l : List (K × V)) (k : K) (h : ∀ p ∈ l, p.1 ≠ k) :
    l.filter (fun p => !(p.1 == k)) = l :=
  List.filter_eq_self.mpr (fun p hp => by simp [h p hp])

/-- Helper: in a list of (i, i) pairs, lookup finds a present key and returns
it. -/
theorem lookup_pair_self (k : ℕ) : ∀ l : List ℕ, k ∈ l →
    (l.map (fun i => (i, i))).lookup k = some k := by
  intro l
  induction l with
  | nil => intro h; cases h
  | cons a rest ih =>
    intro h
    by_cases hk : k = a
    · subst hk; simp [List.lookup]
    · have hr : k ∈ rest := by
        cases List.mem_cons.mp h with
        | inl he => exact absurd he hk
        | inr hm => exact hm
      have hne : (k == a) = false := beq_eq_false_iff_ne.mpr hk
      simpa [List.lookup, hne] using ih hr

/-- Helper: the filter step of a recency promotion or an overwrite removes
the found entry, so it shortens the list. -/
theorem filter_length_lt_of_lookup {K V : Type} [BEq K] [LawfulBEq K] :
    ∀ (l : List (K × V)) (k : K) (v : V), l.lookup k = some v →
      (l.filter (fun p => !(p.1 == k))).length < l.length := by
  intro l
  induction l with
  | nil => intro k v h; simp [List.lookup] at h
  | cons p rest ih =>
    intro k v hl
    obtain ⟨a, b⟩ := p
    by_cases hk : k = a
    · subst hk
      rw [List.filter_cons_of_neg (by simp)]
      exact Nat.lt_succ_of_le (List.length_filter_le _ _)
    · have hl2 : rest.lookup k = some v := by
        simpa [List.lookup, beq_eq_false_iff_ne.mpr hk] using hl
      rw [List.filter_cons_of_pos
        (by simp [beq_eq_false_iff_ne.mpr (Ne.symm hk)])]
      simpa using ih k v hl2

/-- Helper: promoting a found entry to the front permutes the entries when
the stored keys are distinct. -/
theorem lookup_promote_perm {K V : Type} [BEq K] [LawfulBEq K] :
    ∀ (l : List (K × V)) (k : K) (v : V), (l.map Prod.fst).Nodup →
      l.lookup k = some v →
      ((k, v) :: l.filter (fun p => !(p.1 == k))).Perm l := by
  intro l
  induction l with
  | nil => intro k v _ h; simp [List.lookup] at h
  | cons p rest ih =>
    intro k v hnd hl
    obtain ⟨a, b⟩ := p
    rw [List.map_cons, List.nodup_cons] at hnd
    by_cases hk : k = a
    · subst hk
      have hb : b = v := by simpa [List.lookup] using hl
      subst hb
      have hne : ∀ q ∈ rest, q.1 ≠ k := by
        intro q hq he
        exact hnd.1 (List.mem_map.mpr ⟨q, hq, he⟩)
      rw [List.filter_cons_of_neg (by simp), filter_key_ne rest k hne]
    · have hl2 : rest.lookup k = some v := by
        simpa [List.lookup, beq_eq_false_iff_ne.mpr hk] using hl
      rw [List.filter_cons_of_pos
        (by simp [beq_eq_false_iff_ne.mpr (Ne.symm hk)])]
      exact (List.Perm.swap (a, b) (k, v) _).trans
        ((ih k v hnd.2 hl2).cons (a, b))

/-- Inserting the keys 0, 1, ..., n-1 (each with itself as value) in order
into an initially empty cache of capacity C: the insertion scenario of the
LRU eviction property. -/
def lru_insertN (C : ℕ) : ℕ → LRUCacheModel ℕ ℕ
  | 0 => lru_empty ℕ ℕ C
  | n + 1 => lru_set (lru_insertN C n) n n

/-- Helper: unfolding equation for lru_insertN. -/
theorem lru_insertN_succ (C n : ℕ) :
    lru_insertN C (n + 1) = lru_set (lru_insertN C n) n n := rfl

/-- Helper: as long as the capacity is not exceeded, the cache holds all
inserted keys, most recent first. -/
theorem lru_insertN_le (C : ℕ) : ∀ n, n ≤ C →
    (lru_insertN C n).entries =
      (List.range n).reverse.map (fun i => (i, i)) ∧
    (lru_insertN C n).maxsize = C := by
  intro n
  induction n with
  | zero => intro _; exact ⟨rfl, rfl⟩
  | succ n ih =>
    intro h
    obtain ⟨he, hm⟩ := ih (Nat.le_of_succ_le h)
    rw [lru_insertN_succ]
    unfold lru_set
    refine ⟨?_, by simpa using hm⟩
    rw [he, hm]
    rw [filter_key_ne _ n ?hne]
    case hne =>
      intro p hp
      obtain ⟨i, hi, rfl⟩ := List.mem_map.mp hp
      have := List.mem_range.mp (List.mem_reverse.mp hi)
      omega
    rw [List.take_of_length_le (by simp; omega)]
    rw [List.range_succ, List.reverse_append]
    simp

/-- C5: LRU eviction behaviour of the cache store (modelled from the spec:
the store is cachetools.LRUCache, an external dependency; only its callers
and tests live under src/).  For capacity C ≥ 2: inserting C + 1 distinct
keys with no intervening reads evicts exactly the first-inserted key 0 and
keeps the keys 1..C; reading key 0 before the (C+1)-th insert protects it —
the insert of key C then evicts key 1, the least recently used entry by
access, while 0 and 2..C stay; and the size never exceeds the capacity:
every set leaves at most maxsize entries, and a get preserves any size
bound. -/
theorem c5_lru_eviction (C : ℕ) (hC : 2 ≤ C) :
    (0 ∉ lru_keys (lru_insertN C (C + 1)) ∧
      ∀ i, 1 ≤ i → i ≤ C → i ∈ lru_keys (lru_insertN C (C + 1))) ∧
    (0 ∈ lru_keys (lru_set ((lru_get (lru_insertN C C) 0).2) C C) ∧
      1 ∉ lru_keys (lru_set ((lru_get (lru_insertN C C) 0).2) C C) ∧
      ∀ i, 2 ≤ i → i ≤ C →
        i ∈ lru_keys (lru_set ((lru_get (lru_insertN C C) 0).2) C C)) ∧
    (∀ (c : LRUCacheModel ℕ ℕ) (k v : ℕ),
      (lru_set c k v).entries.length ≤ c.maxsize ∧
      (c.entries.length ≤ c.maxsize →
        ((lru_get c k).2).entries.length ≤ c.maxsize)) := by
  obtain ⟨hCe, hCm⟩ := lru_insertN_le C C le_rfl
  have hrangeC : List.range C = 0 :: List.range' 1 (C - 1) := by
    rw [List.range_eq_range', range'_cons 0 C (by omega)]
  have hfilC : ((List.range C).reverse.map (fun i => (i, i))).filter
      (fun p => !(p.1 == C)) =
      (List.range C).reverse.map (fun i => (i, i)) := by
    refine filter_key_ne _ C ?_
    intro p hp
    obtain ⟨i, hi, rfl⟩ := List.mem_map.mp hp
    have := List.mem_range.mp (List.mem_reverse.mp hi)
    omega
  refine ⟨?_, ?_, ?_⟩
  · -- C + 1 plain inserts
    have hkeys : lru_keys (lru_insertN C (C + 1)) =
        C :: (List.range' 1 (C - 1)).reverse := by
      rw [lru_insertN_succ]
      unfold lru_keys lru_set
      rw [hCe, hCm, hfilC, hrangeC, List.reverse_cons]
      conv_lhs => rw [show C = (C - 1) + 1 from by omega]
      rw [List.map_append, List.take_succ_cons,
        List.take_left' (by simp [List.length_range'])]
      simp only [List.map_cons, List.map_map, List.map_reverse]
      refine congrArg₂ List.cons (by omega) ?_
      refine congrArg List.reverse ?_
      have hid : (Prod.fst ∘ fun i : ℕ => (i, i)) = id := rfl
      rw [hid, List.map_id]
      congr 1
    rw [hkeys]
    constructor
    · simp only [List.mem_cons, List.mem_reverse, mem_range'_one]
      omega
    · intro i h1 h2
      simp only [List.mem_cons, List.mem_reverse, mem_range'_one]
      omega
  · -- read key 0, then insert key C
    have hmem0 : (0 : ℕ) ∈ (List.range C).reverse := by
      rw [List.mem_reverse, List.mem_range]; omega
    have hlook : ((List.range C).reverse.map (fun i => (i, i))).lookup 0 =
        some 0 := lookup_pair_self 0 _ hmem0
    have hget : (lru_get (lru_insertN C C) 0).2.entries =
        (0, 0) :: ((List.range' 1 (C - 1)).reverse.map (fun i => (i, i))) ∧
        (lru_get (lru_insertN C C) 0).2.maxsize = C := by
      unfold lru_get
      rw [hCe, hlook]
      refine ⟨?_, by simpa using hCm⟩
      simp only []
      rw [List.filter_map]
      congr 1
      rw [hrangeC, List.reverse_cons, List.filter_append]
      rw [List.filter_eq_self.mpr ?hall]
      case hall =>
        intro a ha
        have h1 := (mem_range'_one).mp (List.mem_reverse.mp ha)
        simp only [Function.comp_apply]
        simp only [Bool.not_eq_eq_eq_not, Bool.not_true, beq_eq_false_iff_ne]
        omega
      simp [Function.comp]
    have hkeys2 : lru_keys (lru_set ((lru_get (lru_insertN C C) 0).2) C C) =
        C :: 0 :: (List.range' 2 (C - 2)).reverse := by
      unfold lru_keys lru_set
      rw [hget.1, hget.2]
      rw [List.filter_cons_of_pos (by simp; omega)]
      rw [filter_key_ne _ C ?hne2]
      case hne2 =>
        intro p hp
        obtain ⟨i, hi, rfl⟩ := List.mem_map.mp hp
        have := (mem_range'_one).mp (List.mem_reverse.mp hi)
        omega
      rw [range'_cons 1 (C - 1) (by omega), List.reverse_cons, List.map_append]
      conv_lhs => rw [show C = (C - 2) + 1 + 1 from by omega]
      rw [List.take_succ_cons, List.take_succ_cons,
        List.take_left' (by simp [List.length_range'])]
      simp only [List.map_cons, List.map_map, List.map_reverse]
      refine congrArg₂ List.cons (by omega) ?_
      refine congrArg₂ List.cons rfl ?_
      refine congrArg List.reverse ?_
      have hid : (Prod.fst ∘ fun i : ℕ => (i, i)) = id := rfl
      rw [hid, List.map_id]
      congr 1
    rw [hkeys2]
    refine ⟨by simp, ?_, ?_⟩
    · simp only [List.mem_cons, List.mem_reverse, mem_range'_one]
      omega
    · intro i h1 h2
      simp only [List.mem_cons, List.mem_reverse, mem_range'_one]
      omega
  · -- the size bound
    intro c k v
    constructor
    · unfold lru_set
      simp only [List.length_take]
      exact Nat.min_le_left c.maxsize _
    · intro hle
      unfold lru_get
      cases hl : c.entries.lookup k with
      | none => exact hle
      | some w =>
        have := filter_length_lt_of_lookup c.entries k w hl
        simp only [List.length_cons]
        omega

/-- Witness for c5_lru_eviction at capacity 3. -/
theorem c5_lru_eviction_witness :
    (0 ∉ lru_keys (lru_insertN 3 4) ∧
      ∀ i, 1 ≤ i → i ≤ 3 → i ∈ lru_keys (lru_insertN 3 4)) ∧
    (0 ∈ lru_keys (lru_set ((lru_get (lru_insertN 3 3) 0).2) 3 3) ∧
      1 ∉ lru_keys (lru_set ((lru_get (lru_insertN 3 3) 0).2) 3 3) ∧
      ∀ i, 2 ≤ i → i ≤ 3 →
        i ∈ lru_keys (lru_set ((lru_get (lru_insertN 3 3) 0).2) 3 3)) ∧
    (∀ (c : LRUCacheModel ℕ ℕ) (k v : ℕ),
      (lru_set c k v).entries.length ≤ c.maxsize ∧
      (c.entries.length ≤ c.maxsize →
        ((lru_get c k).2).entries.length ≤ c.maxsize)) :=
  c5_lru_eviction 3 (by decide)

/-- Helper: the repair phase always hands back a query. -/
theorem gwrIter_query_isSome (repair : String → Option String → String)
    (validate : String → Bool × Option String) :
    ∀ (n : ℕ) (cur : String) (err : Option String) (hist : List String)
      (c : GwrCounts),
      (gwrIter repair validate n cur err hist c).query.isSome := by
  intro n
  induction n with
  | zero => intro cur err hist c; rfl
  | succ n ih =>
    intro cur err hist c
    simp only [gwrIter]
    cases hval : (validate (repair cur err)).1 with
    | true => simp [hval]
    | false =>
      simp only [hval, Bool.false_eq_true, if_false]
      exact ih _ _ _ _

/-- Helper: with a positive budget, the synthesis loop always returns a
query (valid or not). -/
theorem gwr_query_isSome (mi : ℤ) (gen : String)
    (repair : String → Option String → String)
    (validate : String → Bool × Option String) (hmi : 1 ≤ mi) :
    (generate_with_refinement mi gen repair validate).query.isSome := by
  have hne : ¬ mi ≤ 0 := by omega
  simp only [generate_with_refinement, if_neg hne]
  cases hval : (validate gen).1 with
  | true => simp [hval]
  | false =>
    simp only [hval, Bool.false_eq_true, if_false]
    exact gwrIter_query_isSome repair validate _ _ _ _ _

/-- C6: a cache hit returns the cached record immediately: the returned
query and results are the stored ones, none of the exemplar selector,
generator, validator, repairer or rewriter runs (all stage counts are 0),
and the cache keeps exactly the same entries and capacity — only the recency
order changes (the hit entry is promoted, a permutation). -/
theorem c6_cache_hit_frame (cache : LRUCacheModel String QueryRecord)
    (question inputSchema : String) (r : QueryRecord)
    (exemplars : List Exemplar) (simv : ℕ → ℚ) (mi : ℤ)
    (gen : String → String) (repair : String → Option String → String)
    (validate : String → Bool × Option String)
    (dbExec : String → Option (List String))
    (hnd : (cache.entries.map Prod.fst).Nodup)
    (hhit : cache.entries.lookup
      (Fingerprint.cache_key question inputSchema) = some r) :
    (run_query cache question inputSchema exemplars simv mi gen repair
      validate dbExec).query = some r.query ∧
    (run_query cache question inputSchema exemplars simv mi gen repair
      validate dbExec).results = some r.results ∧
    (run_query cache question inputSchema exemplars simv mi gen repair
      validate dbExec).counts = PipelineCounts.zero ∧
    ((run_query cache question inputSchema exemplars simv mi gen repair
      validate dbExec).cache.entries).Perm cache.entries ∧
    (run_query cache question inputSchema exemplars simv mi gen repair
      validate dbExec).cache.maxsize = cache.maxsize := by
  simp only [run_query, lru_get, hhit]
  refine ⟨trivial, trivial, trivial, ?_, trivial⟩
  exact lookup_promote_perm cache.entries _ r hnd hhit

/-- Witness for c6_cache_hit_frame on a one-entry cache. -/
theorem c6_cache_hit_frame_witness :
    (run_query ⟨[(Fingerprint.cache_key "q" "s", ⟨"MATCH (s) RETURN s", ["row"]⟩)], 4⟩
      "q" "s" [] (fun _ => (1 : ℚ)) 3 (fun _ => "g") (fun q _ => q)
      (fun _ => (true, none)) (fun _ => some [])).query =
        some "MATCH (s) RETURN s" ∧
    (run_query ⟨[(Fingerprint.cache_key "q" "s", ⟨"MATCH (s) RETURN s", ["row"]⟩)], 4⟩
      "q" "s" [] (fun _ => (1 : ℚ)) 3 (fun _ => "g") (fun q _ => q)
      (fun _ => (true, none)) (fun _ => some [])).results = some ["row"] ∧
    (run_query ⟨[(Fingerprint.cache_key "q" "s", ⟨"MATCH (s) RETURN s", ["row"]⟩)], 4⟩
      "q" "s" [] (fun _ => (1 : ℚ)) 3 (fun _ => "g") (fun q _ => q)
      (fun _ => (true, none)) (fun _ => some [])).counts = PipelineCounts.zero ∧
    ((run_query ⟨[(Fingerprint.cache_key "q" "s", ⟨"MATCH (s) RETURN s", ["row"]⟩)], 4⟩
      "q" "s" [] (fun _ => (1 : ℚ)) 3 (fun _ => "g") (fun q _ => q)
      (fun _ => (true, none)) (fun _ => some [])).cache.entries).Perm
        [(Fingerprint.cache_key "q" "s", ⟨"MATCH (s) RETURN s", ["row"]⟩)] ∧
    (run_query ⟨[(Fingerprint.cache_key "q" "s", ⟨"MATCH (s) RETURN s", ["row"]⟩)], 4⟩
      "q" "s" [] (fun _ => (1 : ℚ)) 3 (fun _ => "g") (fun q _ => q)
      (fun _ => (true, none)) (fun _ => some [])).cache.maxsize = 4 :=
  c6_cache_hit_frame
    ⟨[(Fingerprint.cache_key "q" "s", ⟨"MATCH (s) RETURN s", ["row"]⟩)], 4⟩
    "q" "s" ⟨"MATCH (s) RETURN s", ["row"]⟩ [] (fun _ => (1 : ℚ)) 3
    (fun _ => "g") (fun q _ => q) (fun _ => (true, none)) (fun _ => some [])
    (by decide) (by decide)

/-- C9: when the cache misses and executing the synthesized query on the
database raises (kuzu RuntimeError, dbExec = none), run_query still returns
normally with the query text and an absent results value, and the cache is
left exactly as it was: the failing query is never stored under its key —
the store happens only after a successful execution. -/
theorem c9_error_no_store (cache : LRUCacheModel String QueryRecord)
    (question inputSchema : String)
    (exemplars : List Exemplar) (simv : ℕ → ℚ) (mi : ℤ)
    (gen : String → String) (repair : String → Option String → String)
    (validate : String → Bool × Option String)
    (dbExec : String → Option (List String))
    (hmi : 1 ≤ mi)
    (hmiss : cache.entries.lookup
      (Fingerprint.cache_key question inputSchema) = none)
    (hdb : ∀ q, dbExec q = none) :
    (run_query cache question inputSchema exemplars simv mi gen repair
      validate dbExec).results = none ∧
    (run_query cache question inputSchema exemplars simv mi gen repair
      validate dbExec).cache = cache ∧
    (run_query cache question inputSchema exemplars simv mi gen repair
      validate dbExec).query.isSome = true := by
  have hsome := gwr_query_isSome mi
    (gen (String.intercalate "\n\n" ((select_top_k exemplars simv 3).map
      (fun ex => "Question: " ++ ex.question ++ "\nCypher: " ++ ex.cypher))))
    repair validate hmi
  obtain ⟨q, hq⟩ := Option.isSome_iff_exists.mp hsome
  simp only [run_query, lru_get, hmiss, get_cypher_query, hq, hdb]
  exact ⟨trivial, trivial, rfl⟩

/-- Witness for c9_error_no_store: empty cache, always-failing database. -/
theorem c9_error_no_store_witness :
    (run_query (lru_empty String QueryRecord 4) "q" "s" [] (fun _ => (1 : ℚ))
      3 (fun _ => "g") (fun q _ => q) (fun _ => (true, none))
      (fun _ => none)).results = none ∧
    (run_query (lru_empty String QueryRecord 4) "q" "s" [] (fun _ => (1 : ℚ))
      3 (fun _ => "g") (fun q _ => q) (fun _ => (true, none))
      (fun _ => none)).cache = lru_empty String QueryRecord 4 ∧
    (run_query (lru_empty String QueryRecord 4) "q" "s" [] (fun _ => (1 : ℚ))
      3 (fun _ => "g") (fun q _ => q) (fun _ => (true, none))
      (fun _ => none)).query.isSome = true :=
  c9_error_no_store (lru_empty String QueryRecord 4) "q" "s" []
    (fun _ => (1 : ℚ)) 3 (fun _ => "g") (fun q _ => q)
    (fun _ => (true, none)) (fun _ => none)
    (by decide) (by rfl) (fun _ => rfl)

/-- C10: a non-positive iteration budget makes generate_with_refinement
return an absent query and an empty history with zero collaborator calls: the
Python range over max_iterations is empty, so neither the generator nor the
repairer nor the validator ever runs. -/
theorem c10_nonpositive_budget (mi : ℤ) (h : mi ≤ 0) (gen : String)
    (repair : String → Option String → String)
    (validate : String → Bool × Option String) :
    generate_with_refinement mi gen repair validate =
      ⟨none, [], ⟨0, 0, 0⟩⟩ := by
  unfold generate_with_refinement
  rw [if_pos h]

/-- Witness for c10_nonpositive_budget at mi = 0. -/
theorem c10_nonpositive_budget_witness :
    generate_with_refinement 0 "q" (fun q _ => q) (fun _ => (false, none)) =
      ⟨none, [], ⟨0, 0, 0⟩⟩ :=
  c10_nonpositive_budget 0 (by decide) "q" (fun q _ => q) (fun _ => (false, none))

end Text2Cypher
